import Mathlib

/-!
# Verification of the bevy_rand fork/reseed protocol

A shallow embedding of the core of the `bevy_rand` repository:

* the RNG capability contract (an algorithm is an opaque deterministic map
  from a fixed-width seed to a position-indexed byte stream; draws advance
  the position),
* the forking protocol of `src/traits.rs` (`fork_rng`, `fork_seed`,
  `fork_as`, `fork_inner`, `fork_inner_seed`),
* the seed-component lifecycle hooks of `src/seed.rs` (`RngSeed::on_insert`
  and `RngSeed::on_remove` acting through the deferred command queue),
* the observer systems of `src/observers.rs` (`seed_children`,
  `seed_from_parent`, `trigger_seed_children`),
* the `GlobalEntropy` resource of `src/resource.rs`,
* the concrete WyRand generator used by the repository's reference vectors.

Bytes are modelled as `Nat` values below 256, machine words as `Nat` with
explicit reduction modulo `2 ^ 64`, entities as `Nat` identifiers, and the
ECS component storage as functions `Nat → Option _`.
-/

namespace BevyRand

/-- The RNG capability contract (spec §4.1, `bevy_prng::EntropySource`):
an algorithm is identified by its fixed seed byte-width and an opaque
deterministic map from a seed to a position-indexed byte stream. Words and
byte fills are pure functions of the current position, and the position
advances as a side effect of drawing. -/
structure Capability where
  width : Nat
  alg : List Nat → Nat → Nat

/-- An RNG instance (`Entropy<R>` / a live stream): the seed it was
constructed from together with the current stream position. Draws only
advance `pos`; the underlying stream is fixed by the capability. -/
structure Entropy where
  seed : List Nat
  pos : Nat
deriving DecidableEq

/-- Model of `SeedableRng::from_seed`: deterministic construction of an instance from
a seed, starting at stream position zero. -/
def Entropy.fromSeed (s : List Nat) : Entropy :=
  ⟨s, 0⟩

/-- The `n` bytes of the instance's stream starting at its current position. -/
def Entropy.bytesFrom (cap : Capability) (e : Entropy) (n : Nat) : List Nat :=
  (List.range n).map (fun i => cap.alg e.seed (e.pos + i))

/-- Model of `RngCore::fill_bytes`: draw `n` bytes from the caller's current stream,
advancing the position by `n`. -/
def Entropy.fillBytes (cap : Capability) (e : Entropy) (n : Nat) : List Nat × Entropy :=
  (e.bytesFrom cap n, { e with pos := e.pos + n })

/-- Little-endian value of a byte list. -/
def leVal (bs : List Nat) : Nat :=
  bs.foldr (fun b acc => b % 256 + 256 * acc) 0

/-- Model of `RngCore::next_u32`: four bytes drawn from the current position, read
little-endian. -/
def Entropy.nextU32 (cap : Capability) (e : Entropy) : Nat × Entropy :=
  let (bs, e') := e.fillBytes cap 4
  (leVal bs, e')

/-- Model of `RngCore::next_u64`: eight bytes drawn from the current position, read
little-endian. -/
def Entropy.nextU64 (cap : Capability) (e : Entropy) : Nat × Entropy :=
  let (bs, e') := e.fillBytes cap 8
  (leVal bs, e')

/-- Model of `ForkableSeed::fork_seed` (src/traits.rs lines 133-139): let a default
seed buffer of the capability's width be filled from the caller's stream
(`self.fill_bytes(seed.as_mut())`), mutating the caller, and yield the seed
(`Self::Output::from_seed(seed)` stores exactly those bytes). -/
def Entropy.fork_seed (cap : Capability) (e : Entropy) : List Nat × Entropy :=
  e.fillBytes cap cap.width

/-- Model of `ForkableInnerSeed::fork_inner_seed` (src/traits.rs lines 211-217): the
same byte derivation as `fork_seed`, yielding the bare seed. -/
def Entropy.fork_inner_seed (cap : Capability) (e : Entropy) : List Nat × Entropy :=
  e.fillBytes cap cap.width

/-- Model of `ForkableRng::fork_rng` (src/traits.rs lines 35-37):
`Self::Output::from_rng(self)` draws a seed-width buffer from the caller's
stream and constructs the new instance from it at position zero. -/
def Entropy.fork_rng (cap : Capability) (e : Entropy) : Entropy × Entropy :=
  let (s, e') := e.fillBytes cap cap.width
  (Entropy.fromSeed s, e')

/-- Model of `ForkableAsRng::fork_as` (src/traits.rs lines 67-69): as `fork_rng`, but
the drawn buffer is sized for the declared target kind (`tw` bytes). -/
def Entropy.fork_as (cap : Capability) (tw : Nat) (e : Entropy) : Entropy × Entropy :=
  let (s, e') := e.fillBytes cap tw
  (Entropy.fromSeed s, e')

/-- Model of `ForkableInnerRng::fork_inner` (src/traits.rs lines 100-102): as
`fork_rng`, yielding the bare inner instance. -/
def Entropy.fork_inner (cap : Capability) (e : Entropy) : Entropy × Entropy :=
  let (s, e') := e.fillBytes cap cap.width
  (Entropy.fromSeed s, e')

/-! ## Call-level semantics for the forking protocol (claim C1)

Each public fork/draw operation is a single call. `exec` is the functional
semantics translated from the source; `Step` is the corresponding relational
semantics, whose functionality expresses that the protocol has no hidden
nondeterminism. -/

/-- One fork or draw call on a live stream. -/
inductive Call where
  | fork_rng : Call
  | fork_seed : Call
  | fork_as (tw : Nat) : Call
  | fork_inner : Call
  | next_u32 : Call
  | next_u64 : Call
  | fill (n : Nat) : Call
deriving DecidableEq

/-- The value produced by a call. -/
inductive Out where
  | rng (e : Entropy) : Out
  | seedv (s : List Nat) : Out
  | bytes (bs : List Nat) : Out
  | word (w : Nat) : Out
deriving DecidableEq

/-- Functional semantics of one call, translated from `src/traits.rs` and
the `RngCore` draw operations. -/
def exec (cap : Capability) (e : Entropy) : Call → Out × Entropy
  | .fork_rng =>
    let (i, e') := e.fork_rng cap
    (.rng i, e')
  | .fork_seed =>
    let (s, e') := e.fork_seed cap
    (.seedv s, e')
  | .fork_as tw =>
    let (i, e') := e.fork_as cap tw
    (.rng i, e')
  | .fork_inner =>
    let (i, e') := e.fork_inner cap
    (.rng i, e')
  | .next_u32 =>
    let (w, e') := e.nextU32 cap
    (.word w, e')
  | .next_u64 =>
    let (w, e') := e.nextU64 cap
    (.word w, e')
  | .fill n =>
    let (bs, e') := e.fillBytes cap n
    (.bytes bs, e')

/-- Relational semantics of one call: each constructor records the defining
equation of the corresponding source operation. -/
inductive Step (cap : Capability) : Entropy → Call → Out → Entropy → Prop where
  | fork_rng (e : Entropy) (i : Entropy) (e' : Entropy)
      (h : e.fork_rng cap = (i, e')) : Step cap e .fork_rng (.rng i) e'
  | fork_seed (e : Entropy) (s : List Nat) (e' : Entropy)
      (h : e.fork_seed cap = (s, e')) : Step cap e .fork_seed (.seedv s) e'
  | fork_as (e : Entropy) (tw : Nat) (i : Entropy) (e' : Entropy)
      (h : e.fork_as cap tw = (i, e')) : Step cap e (.fork_as tw) (.rng i) e'
  | fork_inner (e : Entropy) (i : Entropy) (e' : Entropy)
      (h : e.fork_inner cap = (i, e')) : Step cap e .fork_inner (.rng i) e'
  | next_u32 (e : Entropy) (w : Nat) (e' : Entropy)
      (h : e.nextU32 cap = (w, e')) : Step cap e .next_u32 (.word w) e'
  | next_u64 (e : Entropy) (w : Nat) (e' : Entropy)
      (h : e.nextU64 cap = (w, e')) : Step cap e .next_u64 (.word w) e'
  | fill (e : Entropy) (n : Nat) (bs : List Nat) (e' : Entropy)
      (h : e.fillBytes cap n = (bs, e')) : Step cap e (.fill n) (.bytes bs) e'

/-- Instance construction from a seed, as a relation. -/
inductive ConstructR : List Nat → Entropy → Prop where
  | mk (s : List Nat) : ConstructR s (Entropy.fromSeed s)

lemma Step_exec {cap : Capability} {e : Entropy} {c : Call} {o : Out} {e' : Entropy}
    (h : Step cap e c o e') : exec cap e c = (o, e') := by
  cases h <;> simp_all [exec]

/-- A fork/draw program over a world of objects: the machine state is the
list of live instances, calls address an object by index. A fork call
appends the freshly constructed instance as a new object
(`commands.spawn((Marker, source.fork_rng()))`). -/
inductive PCall where
  | onObj (i : Nat) (c : Call) : PCall
deriving DecidableEq

/-- Functional semantics of one per-object call. A call addressed to a
missing object produces no output and leaves the world unchanged. -/
def mexec (cap : Capability) (m : List Entropy) : PCall → Option Out × List Entropy
  | .onObj i c =>
    match m.get? i with
    | some e =>
      let (o, e') := exec cap e c
      let m' := m.set i e'
      match o with
      | .rng inst => (some o, m' ++ [inst])
      | _ => (some o, m')
    | none => (none, m)

/-- Relational run semantics over a call sequence, recording the output
trace and the final world. -/
inductive MRun (cap : Capability) : List Entropy → List PCall → List (Option Out) → List Entropy → Prop where
  | nil (m : List Entropy) : MRun cap m [] [] m
  | cons (m : List Entropy) (c : PCall) (o : Option Out) (m' : List Entropy)
      (cs : List PCall) (os : List (Option Out)) (mF : List Entropy)
      (h : mexec cap m c = (o, m')) (ht : MRun cap m' cs os mF) :
      MRun cap m (c :: cs) (o :: os) mF

lemma MRun_det {cap : Capability} {m : List Entropy} {cs : List PCall}
    {os₁ os₂ : List (Option Out)} {m₁ m₂ : List Entropy}
    (h₁ : MRun cap m cs os₁ m₁) (h₂ : MRun cap m cs os₂ m₂) :
    os₁ = os₂ ∧ m₁ = m₂ := by
  induction h₁ generalizing os₂ m₂ with
  | nil m =>
    cases h₂
    exact ⟨rfl, rfl⟩
  | cons m c o m' cs os mF h ht ih =>
    cases h₂ with
    | cons _ _ o₂ m₂' _ os₂' mF₂ h₂' ht₂ =>
      rw [h] at h₂'
      obtain ⟨ho, hm⟩ := Prod.mk.injEq .. ▸ h₂'
      subst ho
      cases hm
      obtain ⟨hos, hmF⟩ := ih ht₂
      exact ⟨by rw [hos], hmF⟩

/-- C1. Determinism of the fork/reseed protocol: a single call is a function
of the source stream's state; instance construction from a seed is a
function of the seed; and a whole run (fixed root seed, fixed call
sequence) produces a bit-identical output trace and final world, however
many derivations of it are exhibited. -/
theorem fork_protocol_deterministic (cap : Capability) :
    (∀ e c o₁ e₁ o₂ e₂, Step cap e c o₁ e₁ → Step cap e c o₂ e₂ → o₁ = o₂ ∧ e₁ = e₂)
    ∧ (∀ s i₁ i₂, ConstructR s i₁ → ConstructR s i₂ → i₁ = i₂)
    ∧ (∀ rootSeed calls os₁ m₁ os₂ m₂,
        MRun cap [Entropy.fromSeed rootSeed] calls os₁ m₁ →
        MRun cap [Entropy.fromSeed rootSeed] calls os₂ m₂ →
        os₁ = os₂ ∧ m₁ = m₂) := by
  refine ⟨?_, ?_, ?_⟩
  · intro e c o₁ e₁ o₂ e₂ h₁ h₂
    have e₁' := Step_exec h₁
    have e₂' := Step_exec h₂
    rw [e₁'] at e₂'
    exact ⟨(Prod.mk.injEq .. ▸ e₂').1, (Prod.mk.injEq .. ▸ e₂').2⟩
  · intro s i₁ i₂ h₁ h₂
    cases h₁; cases h₂; rfl
  · intro rootSeed calls os₁ m₁ os₂ m₂ h₁ h₂
    exact MRun_det h₁ h₂

/-- Witness for C1: a concrete two-call run (fork a seed off the root, then
draw a word from the forked object) under a concrete capability, executed
twice, with both hypotheses discharged by explicit derivations. -/
theorem fork_protocol_deterministic_witness :
    ∃ os m, MRun ⟨2, fun s i => (s.headD 0 + i) % 256⟩
        [Entropy.fromSeed [7, 7]] [.onObj 0 .fork_seed, .onObj 0 .next_u32] os m ∧
      (os = os ∧ m = m) := by
  refine ⟨_, _, MRun.cons _ _ _ _ _ _ _ rfl (MRun.cons _ _ _ _ _ _ _ rfl (MRun.nil _)), ?_⟩
  exact (fork_protocol_deterministic ⟨2, fun s i => (s.headD 0 + i) % 256⟩).2.2 [7, 7]
    [.onObj 0 .fork_seed, .onObj 0 .next_u32] _ _ _ _
    (MRun.cons _ _ _ _ _ _ _ rfl (MRun.cons _ _ _ _ _ _ _ rfl (MRun.nil _)))
    (MRun.cons _ _ _ _ _ _ _ rfl (MRun.cons _ _ _ _ _ _ _ rfl (MRun.nil _)))

/-! ## Seed-component lifecycle (claims C2, C3)

`src/seed.rs`: `RngSeed<R>` is an immutable component. Its `on_insert`
hook reads the just-written seed and enqueues, on the deferred command
queue, the insertion of `Entropy::<R>::from_seed(seed)` on the same entity;
its `on_remove` hook enqueues the removal of `Entropy<R>`. Commands are
applied FIFO at a flush. Entities are `Nat`; a component store is a
function `Nat → Option _` (an entity holds zero or one component of a
type, so "exactly one instance" is the `some` case). -/

/-- Point update of a component store. -/
def upd {α : Type} (f : Nat → Option α) (e : Nat) (v : Option α) : Nat → Option α :=
  fun x => if x = e then v else f x

/-- A deferred command enqueued by a lifecycle hook. -/
inductive Cmd where
  | insertInst (e : Nat) (s : List Nat) : Cmd
  | removeInst (e : Nat) : Cmd
deriving DecidableEq

/-- The world fragment relevant to the seed/instance pairing: the
`RngSeed<R>` store, the `Entropy<R>` store, and the deferred queue. -/
structure SWorld where
  seedC : Nat → Option (List Nat)
  instC : Nat → Option Entropy
  queue : List Cmd

/-- Insert (or replace) `RngSeed` on entity `e`: the component is written
at once, and the `on_insert` hook (src/seed.rs lines 81-92) reads the
stored seed back and enqueues the deferred insertion of
`Entropy::from_seed` of that seed. -/
def SWorld.insertSeed (w : SWorld) (e : Nat) (s : List Nat) : SWorld :=
  { w with
    seedC := upd w.seedC e (some s)
    queue := w.queue ++ [Cmd.insertInst e s] }

/-- Remove `RngSeed` from entity `e`: if present, the component is removed
and the `on_remove` hook (src/seed.rs lines 94-101) enqueues the deferred
removal of `Entropy`; removing an absent component runs no hook. -/
def SWorld.removeSeed (w : SWorld) (e : Nat) : SWorld :=
  match w.seedC e with
  | some _ =>
    { w with
      seedC := upd w.seedC e none
      queue := w.queue ++ [Cmd.removeInst e] }
  | none => w

/-- Apply one deferred command to the stores. -/
def SWorld.applyCmd (w : SWorld) : Cmd → SWorld
  | .insertInst e s => { w with instC := upd w.instC e (some (Entropy.fromSeed s)) }
  | .removeInst e => { w with instC := upd w.instC e none }

/-- Flush: apply the queued commands FIFO, leaving the queue empty. -/
def SWorld.flush (w : SWorld) : SWorld :=
  w.queue.foldl SWorld.applyCmd { w with queue := [] }

/-- One user-level seed operation, always followed by a flush before the
next observable read. -/
inductive SeedOp where
  | ins (e : Nat) (s : List Nat) : SeedOp
  | rem (e : Nat) : SeedOp

def SWorld.applyOp (w : SWorld) : SeedOp → SWorld
  | .ins e s => (w.insertSeed e s).flush
  | .rem e => (w.removeSeed e).flush

def SWorld.applyOps (w : SWorld) (ops : List SeedOp) : SWorld :=
  ops.foldl SWorld.applyOp w

/-- The pairing invariant: every entity's `Entropy` is exactly the
deterministic construction from its stored `RngSeed`, and is absent when
the seed is absent. -/
def SWorld.paired (w : SWorld) : Prop :=
  ∀ e, w.instC e = Option.map Entropy.fromSeed (w.seedC e)

lemma applyCmd_queue (w : SWorld) (c : Cmd) : (w.applyCmd c).queue = w.queue := by
  cases c <;> rfl

lemma applyCmd_seedC (w : SWorld) (c : Cmd) : (w.applyCmd c).seedC = w.seedC := by
  cases c <;> rfl

lemma foldl_applyCmd_queue (cs : List Cmd) (w : SWorld) :
    (cs.foldl SWorld.applyCmd w).queue = w.queue := by
  induction cs generalizing w with
  | nil => rfl
  | cons c cs ih => simpa [List.foldl, applyCmd_queue] using ih (w.applyCmd c)

lemma foldl_applyCmd_seedC (cs : List Cmd) (w : SWorld) :
    (cs.foldl SWorld.applyCmd w).seedC = w.seedC := by
  induction cs generalizing w with
  | nil => rfl
  | cons c cs ih => simpa [List.foldl, applyCmd_seedC] using ih (w.applyCmd c)

lemma flush_empty (w : SWorld) (hq : w.queue = []) : w.flush = w := by
  cases w with
  | mk s i q =>
    cases hq
    rfl

lemma flush_queue (w : SWorld) : w.flush.queue = [] := by
  simpa [SWorld.flush] using foldl_applyCmd_queue w.queue { w with queue := [] }

lemma flush_seedC (w : SWorld) : w.flush.seedC = w.seedC := by
  simpa [SWorld.flush] using foldl_applyCmd_seedC w.queue { w with queue := [] }

lemma flush_singleton_insert (w : SWorld) (e : Nat) (s : List Nat) (hq : w.queue = []) :
    (w.insertSeed e s).flush.instC = upd w.instC e (some (Entropy.fromSeed s)) := by
  simp [SWorld.insertSeed, SWorld.flush, hq, List.foldl, SWorld.applyCmd]

lemma flush_singleton_remove (w : SWorld) (e : Nat) (s : List Nat) (hq : w.queue = [])
    (hs : w.seedC e = some s) :
    (w.removeSeed e).flush.instC = upd w.instC e none := by
  simp [SWorld.removeSeed, hs, SWorld.flush, hq, List.foldl, SWorld.applyCmd]

lemma paired_applyOp {w : SWorld} (hq : w.queue = []) (hp : w.paired) (op : SeedOp) :
    (w.applyOp op).paired ∧ (w.applyOp op).queue = [] := by
  cases op with
  | ins e s =>
    refine ⟨?_, flush_queue _⟩
    intro x
    rw [SWorld.applyOp, flush_singleton_insert w e s hq, flush_seedC, SWorld.insertSeed]
    by_cases hx : x = e <;> simp [upd, hx, hp x]
  | rem e =>
    refine ⟨?_, flush_queue _⟩
    intro x
    cases hs : w.seedC e with
    | some s =>
      rw [SWorld.applyOp, flush_singleton_remove w e s hq hs, flush_seedC, SWorld.removeSeed, hs]
      by_cases hx : x = e <;> simp [upd, hx, hp x]
    | none =>
      rw [SWorld.applyOp, SWorld.removeSeed, hs]
      rw [flush_empty w hq]
      exact hp x

lemma paired_applyOps {w : SWorld} (hq : w.queue = []) (hp : w.paired) (ops : List SeedOp) :
    (w.applyOps ops).paired := by
  induction ops generalizing w with
  | nil => exact hp
  | cons op ops ih =>
    obtain ⟨hp', hq'⟩ := paired_applyOp hq hp op
    exact ih hq' hp'

/-- C2. Inserting `RngSeed` on an entity makes it hold, once the deferred
commands are applied, exactly the `Entropy` instance constructed
deterministically from that stored seed; removing the seed removes the
instance; and the pairing invariant holds after every insert/remove
followed by its flush. -/
theorem seed_instance_pairing (w : SWorld) (hq : w.queue = []) (hp : w.paired) :
    (∀ e s, (w.insertSeed e s).flush.instC e = some (Entropy.fromSeed s))
    ∧ (∀ e, (w.removeSeed e).flush.instC e = none)
    ∧ (∀ ops, (w.applyOps ops).paired) := by
  refine ⟨?_, ?_, paired_applyOps hq hp⟩
  · intro e s
    rw [flush_singleton_insert w e s hq]
    simp [upd]
  · intro e
    cases hs : w.seedC e with
    | some s =>
      rw [flush_singleton_remove w e s hq hs]
      simp [upd]
    | none =>
      have : w.removeSeed e = w := by
        rw [SWorld.removeSeed, hs]
      rw [this]
      rw [flush_empty w hq, hp e, hs]
      rfl

/-- Witness for C2: the empty world with one insert and one remove. -/
theorem seed_instance_pairing_witness :
    (SWorld.mk (fun _ => none) (fun _ => none) []).queue = []
    ∧ ((SWorld.mk (fun _ => none) (fun _ => none) []).insertSeed 3 [5, 6]).flush.instC 3
        = some (Entropy.fromSeed [5, 6]) := by
  refine ⟨rfl, ?_⟩
  exact (seed_instance_pairing (SWorld.mk (fun _ => none) (fun _ => none) []) rfl
    (fun e => rfl)).1 3 [5, 6]

/-- C3. Force reseed: re-inserting `RngSeed` on an entity — whatever
instance the entity currently holds, and even when the new seed equals the
stored one — recreates the paired instance as `Entropy.fromSeed seed`,
which sits at stream position zero; the old instance's position is never
preserved. -/
theorem force_reseed_position_zero (w : SWorld) (e : Nat) (s : List Nat) (hq : w.queue = []) :
    (w.insertSeed e s).flush.instC e = some (Entropy.fromSeed s)
    ∧ (Entropy.fromSeed s).pos = 0 := by
  constructor
  · rw [flush_singleton_insert w e s hq]
    simp [upd]
  · rfl

/-- Witness for C3: a world whose entity 3 already stores seed `[5, 6]`
with its instance advanced to position 16; re-inserting the identical seed
recreates the instance at position zero. -/
theorem force_reseed_position_zero_witness :
    ((SWorld.mk (upd (fun _ => none) 3 (some [5, 6]))
        (upd (fun _ => none) 3 (some ⟨[5, 6], 16⟩)) []).insertSeed 3 [5, 6]).flush.instC 3
      = some (Entropy.fromSeed [5, 6])
    ∧ (Entropy.fromSeed [5, 6]).pos = 0 := by
  exact force_reseed_position_zero
    (SWorld.mk (upd (fun _ => none) 3 (some [5, 6]))
      (upd (fun _ => none) 3 (some ⟨[5, 6], 16⟩)) []) 3 [5, 6] rfl

/-! ## Relationship graph and observer systems (claims C4, C7, C8)

`src/observers.rs`: a source entity carries `RngLinks<Rng>` (the ordered
reverse collection of its target entities, in edge-insertion order); a
target carries `RngSource<Rng>` (its one linked source). The observer
systems fork seeds from a source's live stream and write them to targets. -/

/-- The world fragment seen by the observer systems: `Entropy<Rng>`,
`RngLinks<Rng>`, `RngSource<Rng>` and `RngSeed<Rng>` component stores. -/
structure GWorld where
  entC : Nat → Option Entropy
  linksC : Nat → Option (List Nat)
  srcC : Nat → Option Nat
  seedsC : Nat → Option (List Nat)

/-- Stateful fork of one seed per target, in collection order: the model of
`targets.0.iter().copied().map(|target| (target, rng.fork_seed())).collect()`
in `seed_children` (src/observers.rs lines 225-230). -/
def forkBatch (cap : Capability) : Entropy → List Nat → List (Nat × List Nat) × Entropy
  | rng, [] => ([], rng)
  | rng, t :: ts =>
    ((t, (rng.fork_seed cap).1) :: (forkBatch cap (rng.fork_seed cap).2 ts).1,
      (forkBatch cap (rng.fork_seed cap).2 ts).2)

/-- Model of `seed_children` (src/observers.rs lines 217-234): if the triggered
entity holds both `Entropy<Rng>` and `RngLinks<Rng>`, fork one seed per
target from its stream and return the single batched write
(`commands.insert_batch(batched)`) together with the updated world (the
source's stream is mutated in place through the query); otherwise do
nothing. -/
def GWorld.seed_children (cap : Capability) (w : GWorld) (src : Nat) :
    GWorld × List (Nat × List Nat) :=
  match w.entC src, w.linksC src with
  | some rng, some ts =>
    let (batch, rng') := forkBatch cap rng ts
    ({ w with entC := upd w.entC src (some rng') }, batch)
  | some _, none => (w, [])
  | none, _ => (w, [])

/-- Model of `seed_from_parent` (src/observers.rs lines 197-213): the triggered
target pulls one forked seed from its linked source, provided the target
has an `RngSource<Rng>` edge and the linked parent passes the
`Populated<&mut Entropy<Rng>, With<RngLinks<Rng>>>` query (holds both an
instance and the reverse-link registration); otherwise nothing happens.
The returned list is the deferred seed write for the target. -/
def GWorld.seed_from_parent (cap : Capability) (w : GWorld) (target : Nat) :
    GWorld × List (Nat × List Nat) :=
  match w.srcC target with
  | some p =>
    match w.linksC p with
    | some _ =>
      match w.entC p with
      | some rng =>
        let (s, rng') := rng.fork_seed cap
        ({ w with entC := upd w.entC p (some rng') }, [(target, s)])
      | none => (w, [])
    | none => (w, [])
  | none => (w, [])

/-- Model of `trigger_seed_children` (src/observers.rs lines 238-250): when an
`Entropy<Rng>` instance is (re)created on an entity, re-emit a `SeedLinked`
signal targeted at that entity exactly when it passes the
`Query<Entity, With<RngLinks<Rng>>>` guard; the emitted signal list is
returned. -/
def GWorld.trigger_seed_children (w : GWorld) (e : Nat) : List Nat :=
  match w.linksC e with
  | some _ => [e]
  | none => []

/-- The byte segment of a stream `width` bytes long, starting `i` segments
after position `p`: the bytes a fork numbered `i` reads. -/
def segBytes (cap : Capability) (seed : List Nat) (p i : Nat) : List Nat :=
  (List.range cap.width).map (fun j => cap.alg seed (p + i * cap.width + j))

lemma fork_seed_bytes (cap : Capability) (e : Entropy) :
    (e.fork_seed cap).1 = segBytes cap e.seed e.pos 0
    ∧ (e.fork_seed cap).2 = { e with pos := e.pos + cap.width } := by
  constructor
  · simp [Entropy.fork_seed, Entropy.fillBytes, Entropy.bytesFrom, segBytes]
  · rfl

lemma segBytes_shift (cap : Capability) (seed : List Nat) (p i : Nat) :
    segBytes cap seed (p + cap.width) i = segBytes cap seed p (i + 1) := by
  unfold segBytes
  refine List.map_congr_left ?_
  intro j _
  refine congrArg _ ?_
  ring

lemma forkBatch_spec (cap : Capability) (rng : Entropy) (ts : List Nat) :
    (forkBatch cap rng ts).1.map Prod.fst = ts
    ∧ (forkBatch cap rng ts).1.map Prod.snd
        = (List.range ts.length).map (fun i => segBytes cap rng.seed rng.pos i)
    ∧ (forkBatch cap rng ts).2
        = { rng with pos := rng.pos + ts.length * cap.width } := by
  induction ts generalizing rng with
  | nil =>
    refine ⟨rfl, rfl, ?_⟩
    cases rng
    simp [forkBatch]
  | cons t ts ih =>
    obtain ⟨ih₁, ih₂, ih₃⟩ := ih ((rng.fork_seed cap).2)
    refine ⟨?_, ?_, ?_⟩
    · simpa [forkBatch] using ih₁
    · simp only [forkBatch, List.map_cons, List.length_cons, List.range_succ_eq_map,
        List.map_map]
      refine congrArg₂ List.cons ?_ ?_
      · exact (fork_seed_bytes cap rng).1
      · rw [ih₂, (fork_seed_bytes cap rng).2]
        refine List.map_congr_left ?_
        intro i _
        simp only [Function.comp_apply]
        exact segBytes_shift cap rng.seed rng.pos i
    · show (forkBatch cap (rng.fork_seed cap).2 ts).2 = _
      rw [ih₃, (fork_seed_bytes cap rng).2]
      show Entropy.mk rng.seed (rng.pos + cap.width + ts.length * cap.width)
        = Entropy.mk rng.seed (rng.pos + (ts.length + 1) * cap.width)
      refine congrArg _ ?_
      ring

/-- C4 (amended). Processing one `SeedLinked` signal at a source holding an
instance and `N` linked targets returns, as a single batched write, exactly
`N` freshly forked seed writes, one per target in edge-insertion order; the
`i`-th seed is the `i`-th consecutive `width`-sized segment of the source's
stream from its current position (so the seeds are pairwise distinct
whenever those stream segments are); and the source's stream position
advances by exactly `N` times the seed width. -/
theorem seed_children_fanout (cap : Capability) (w : GWorld) (src : Nat)
    (rng : Entropy) (ts : List Nat)
    (hE : w.entC src = some rng) (hL : w.linksC src = some ts) :
    (w.seed_children cap src).2.length = ts.length
    ∧ (w.seed_children cap src).2.map Prod.fst = ts
    ∧ (w.seed_children cap src).2.map Prod.snd
        = (List.range ts.length).map (fun i => segBytes cap rng.seed rng.pos i)
    ∧ (w.seed_children cap src).1.entC src
        = some { rng with pos := rng.pos + ts.length * cap.width }
    ∧ ((∀ i j, i < ts.length → j < ts.length → i ≠ j →
          segBytes cap rng.seed rng.pos i ≠ segBytes cap rng.seed rng.pos j) →
        ((w.seed_children cap src).2.map Prod.snd).Nodup) := by
  obtain ⟨h₁, h₂, h₃⟩ := forkBatch_spec cap rng ts
  have hres : w.seed_children cap src
      = ({ w with entC := upd w.entC src (some (forkBatch cap rng ts).2) },
          (forkBatch cap rng ts).1) := by
    rw [GWorld.seed_children, hE, hL]
  refine ⟨?_, ?_, ?_, ?_, ?_⟩
  · rw [hres]
    have := congrArg List.length h₁
    simpa using this
  · rw [hres]
    exact h₁
  · rw [hres]
    exact h₂
  · rw [hres]
    simp [upd, h₃]
  · intro hseg
    rw [hres]
    simp only [h₂]
    rw [List.nodup_map_iff_inj_on (List.nodup_range _)]
    intro i hi j hj hij
    by_contra hne
    exact hseg i j (List.mem_range.mp hi) (List.mem_range.mp hj) hne hij

/-- Witness for C4: concrete world (entity 0 sources entities 1 and 2) under
a concrete injective-segment capability; both hypotheses are discharged by
`rfl` and the conclusion is evaluated. -/
theorem seed_children_fanout_witness :
    ((GWorld.mk (upd (fun _ => none) 0 (some (Entropy.fromSeed [9])))
        (upd (fun _ => none) 0 (some [1, 2])) (fun _ => none)
        (fun _ => none)).seed_children ⟨2, fun _ i => i % 256⟩ 0).2.map Prod.fst
      = [1, 2] := by
  exact (seed_children_fanout ⟨2, fun _ i => i % 256⟩
    (GWorld.mk (upd (fun _ => none) 0 (some (Entropy.fromSeed [9])))
      (upd (fun _ => none) 0 (some [1, 2])) (fun _ => none) (fun _ => none))
    0 (Entropy.fromSeed [9]) [1, 2] rfl rfl).2.1

/-- Counterexample for C4 as stated: under the constant-zero capability — a
legal instance of the opaque `EntropySource` contract — a source with two
linked targets receives two equal forked seeds, so the batch of seeds
written by one `SeedLinked` is not pairwise distinct. -/
theorem seed_children_distinct_counterexample :
    ((GWorld.mk (upd (fun _ => none) 0 (some (Entropy.fromSeed [])))
        (upd (fun _ => none) 0 (some [1, 2])) (fun _ => none)
        (fun _ => none)).seed_children ⟨8, fun _ _ => 0⟩ 0).2.map Prod.snd
      = [[0, 0, 0, 0, 0, 0, 0, 0], [0, 0, 0, 0, 0, 0, 0, 0]]
    ∧ ¬ (((GWorld.mk (upd (fun _ => none) 0 (some (Entropy.fromSeed [])))
        (upd (fun _ => none) 0 (some [1, 2])) (fun _ => none)
        (fun _ => none)).seed_children ⟨8, fun _ _ => 0⟩ 0).2.map Prod.snd).Nodup := by
  constructor
  · rfl
  · decide

/-- C7. A `SeedFromSource` signal for a target without a linked source edge
is a silent no-op: the world is unchanged and no seed write is produced
(the model is total, so no error can be raised); and whenever the signal
does act (the result differs from the silent no-op), the target has a
linked source edge and that source holds a live instance (and its
`RngLinks` registration, per the query's `With` filter). -/
theorem seed_from_parent_noop (cap : Capability) (w : GWorld) (target : Nat) :
    (w.srcC target = none → w.seed_from_parent cap target = (w, []))
    ∧ (w.seed_from_parent cap target ≠ (w, []) →
        ∃ p, w.srcC target = some p ∧ (w.entC p).isSome ∧ (w.linksC p).isSome) := by
  constructor
  · intro h
    rw [GWorld.seed_from_parent, h]
  · intro hne
    cases hsrc : w.srcC target with
    | none =>
      exact absurd (by simp [GWorld.seed_from_parent, hsrc]) hne
    | some p =>
      refine ⟨p, rfl, ?_⟩
      cases hlk : w.linksC p with
      | none =>
        exact absurd (by simp [GWorld.seed_from_parent, hsrc, hlk]) hne
      | some ts =>
        cases hent : w.entC p with
        | none =>
          exact absurd (by simp [GWorld.seed_from_parent, hsrc, hlk, hent]) hne
        | some rng =>
          exact ⟨by simp [hent], by simp [hlk]⟩

/-- Witness for C7: in a world where entity 4 has no source edge, the signal
changes nothing; the hypothesis of the first part is discharged by `rfl`. -/
theorem seed_from_parent_noop_witness :
    (GWorld.mk (fun _ => none) (fun _ => none) (fun _ => none)
        (fun _ => none)).seed_from_parent ⟨8, fun _ _ => 0⟩ 4
      = (GWorld.mk (fun _ => none) (fun _ => none) (fun _ => none) (fun _ => none), []) := by
  exact (seed_from_parent_noop ⟨8, fun _ _ => 0⟩
    (GWorld.mk (fun _ => none) (fun _ => none) (fun _ => none) (fun _ => none)) 4).1 rfl

/-! ## The reseed cascade (claim C8)

Applying the batched seed writes of `seed_children` runs, for each written
target, the `RngSeed::on_insert` hook (which recreates the target's
`Entropy`) and hence the `trigger_seed_children` observer, which re-emits
`SeedLinked` for exactly the targets carrying `RngLinks`. The cascade
machine processes the pending `SeedLinked` signals FIFO. -/

/-- Apply one seed write of a batch: store the seed and (via the lifecycle
hooks of src/seed.rs) recreate the target's instance from it. -/
def GWorld.applySeedWrite (w : GWorld) (t : Nat) (s : List Nat) : GWorld :=
  { w with
    seedsC := upd w.seedsC t (some s)
    entC := upd w.entC t (some (Entropy.fromSeed s)) }

/-- A cascade state: the world plus the FIFO queue of pending `SeedLinked`
signal targets. -/
structure CState where
  world : GWorld
  queue : List Nat

/-- One cascade step: pop the front `SeedLinked` signal, run
`seed_children` for it, apply the batched writes, and enqueue the signals
re-emitted by `trigger_seed_children` for the recreated instances. -/
def cascadeStep (cap : Capability) : CState → CState
  | ⟨w, []⟩ => ⟨w, []⟩
  | ⟨w, s :: rest⟩ =>
    let r := w.seed_children cap s
    let wF := r.2.foldl (fun acc p => acc.applySeedWrite p.1 p.2) r.1
    let emits := (r.2.map Prod.fst).filter (fun t => (wF.linksC t).isSome)
    ⟨wF, rest ++ emits⟩

lemma applySeedWrite_linksC (w : GWorld) (t : Nat) (s : List Nat) :
    (w.applySeedWrite t s).linksC = w.linksC := rfl

lemma foldl_applySeedWrite_linksC (b : List (Nat × List Nat)) (w : GWorld) :
    (b.foldl (fun acc p => acc.applySeedWrite p.1 p.2) w).linksC = w.linksC := by
  induction b generalizing w with
  | nil => rfl
  | cons p b ih => simpa using ih (w.applySeedWrite p.1 p.2)

/-- C8 (amended). Whenever an `Entropy<Rng>` instance is (re)created on an
entity, a `SeedLinked` signal is re-emitted for it exactly when the entity
carries the `RngLinks<Rng>` registration; in particular an instance
creation on a non-source target emits nothing; and a two-level cascade — a
`SeedLinked` at a source none of whose targets is itself a source —
terminates after the single step that writes the batch. -/
theorem trigger_seed_children_guard (cap : Capability) (w : GWorld) (e : Nat) :
    (w.trigger_seed_children e = [e] ↔ (w.linksC e).isSome)
    ∧ (w.linksC e = none → w.trigger_seed_children e = [])
    ∧ (∀ ts, w.linksC e = some ts → (∀ t ∈ ts, w.linksC t = none) →
        (cascadeStep cap ⟨w, [e]⟩).queue = []) := by
  refine ⟨?_, ?_, ?_⟩
  · cases h : w.linksC e with
    | none => simp [GWorld.trigger_seed_children, h]
    | some ts => simp [GWorld.trigger_seed_children, h]
  · intro h
    rw [GWorld.trigger_seed_children, h]
  · intro ts hlk hts
    cases hent : w.entC e with
    | none =>
      simp [cascadeStep, GWorld.seed_children, hent]
    | some rng =>
      have hres : w.seed_children cap e
          = ({ w with entC := upd w.entC e (some (forkBatch cap rng ts).2) },
              (forkBatch cap rng ts).1) := by
        rw [GWorld.seed_children, hent, hlk]
      have hfst : (forkBatch cap rng ts).1.map Prod.fst = ts := (forkBatch_spec cap rng ts).1
      simp only [cascadeStep, hres, List.nil_append]
      rw [foldl_applySeedWrite_linksC]
      have : ∀ t ∈ (forkBatch cap rng ts).1.map Prod.fst,
          ((GWorld.mk (upd w.entC e (some (forkBatch cap rng ts).2)) w.linksC w.srcC
            w.seedsC).linksC t).isSome = false := by
        intro t ht
        rw [hfst] at ht
        show (w.linksC t).isSome = false
        rw [hts t ht]
        rfl
      exact List.filter_eq_nil_iff.mpr (by simpa using this)

/-- Witness for C8: entity 0 is a source of targets 1 and 2, which are not
sources; the emission guard and the two-level termination are instantiated
there, discharging every hypothesis concretely. -/
theorem trigger_seed_children_guard_witness :
    ((GWorld.mk (upd (fun _ => none) 0 (some (Entropy.fromSeed [3])))
        (upd (fun _ => none) 0 (some [1, 2])) (fun _ => none)
        (fun _ => none)).trigger_seed_children 5 = [])
    ∧ (cascadeStep ⟨1, fun _ _ => 0⟩
        ⟨GWorld.mk (upd (fun _ => none) 0 (some (Entropy.fromSeed [3])))
          (upd (fun _ => none) 0 (some [1, 2])) (fun _ => none) (fun _ => none),
         [0]⟩).queue = [] := by
  constructor
  · exact (trigger_seed_children_guard ⟨1, fun _ _ => 0⟩
      (GWorld.mk (upd (fun _ => none) 0 (some (Entropy.fromSeed [3])))
        (upd (fun _ => none) 0 (some [1, 2])) (fun _ => none) (fun _ => none)) 5).2.1 rfl
  · exact (trigger_seed_children_guard ⟨1, fun _ _ => 0⟩
      (GWorld.mk (upd (fun _ => none) 0 (some (Entropy.fromSeed [3])))
        (upd (fun _ => none) 0 (some [1, 2])) (fun _ => none) (fun _ => none)) 0).2.2 [1, 2]
      rfl (by decide)

/-- The two-entity cyclically linked world: entity 0 and entity 1 are each
the registered source of the other. -/
def cycWorld : GWorld :=
  GWorld.mk
    (fun x => if x = 0 ∨ x = 1 then some (Entropy.fromSeed [4]) else none)
    (fun x => if x = 0 then some [1] else if x = 1 then some [0] else none)
    (fun x => if x = 0 then some 1 else if x = 1 then some 0 else none)
    (fun _ => none)

lemma cascade_cyc_invariant (cap : Capability) (st : CState)
    (hw : st.world.linksC 0 = some [1] ∧ st.world.linksC 1 = some [0]
      ∧ (st.world.entC 0).isSome ∧ (st.world.entC 1).isSome)
    (hq : st.queue = [0] ∨ st.queue = [1]) :
    ((cascadeStep cap st).world.linksC 0 = some [1]
      ∧ (cascadeStep cap st).world.linksC 1 = some [0]
      ∧ ((cascadeStep cap st).world.entC 0).isSome
      ∧ ((cascadeStep cap st).world.entC 1).isSome)
    ∧ ((cascadeStep cap st).queue = [0] ∨ (cascadeStep cap st).queue = [1]) := by
  obtain ⟨h01, h10, he0, he1⟩ := hw
  obtain ⟨w, q⟩ := st
  cases hq with
  | inl h =>
    cases h
    obtain ⟨rng, hrng⟩ := Option.isSome_iff_exists.mp he0
    have hres : w.seed_children cap 0
        = ({ w with entC := upd w.entC 0 (some (forkBatch cap rng [1]).2) },
            (forkBatch cap rng [1]).1) := by
      rw [GWorld.seed_children, hrng, h01]
    have hbatch : (forkBatch cap rng [1]).1
        = [(1, (rng.fork_seed cap).1)] := rfl
    simp only [cascadeStep, hres, hbatch, List.foldl, List.map, List.nil_append]
    refine ⟨⟨?_, ?_, ?_, ?_⟩, ?_⟩
    · simpa [GWorld.applySeedWrite] using h01
    · simpa [GWorld.applySeedWrite] using h10
    · simp [GWorld.applySeedWrite, upd]
    · simp [GWorld.applySeedWrite, upd]
    · right
      have : ((((w.seed_children cap 0).1.applySeedWrite 1
          (rng.fork_seed cap).1).linksC 1).isSome) = true := by
        rw [applySeedWrite_linksC, hres]
        show (w.linksC 1).isSome = true
        rw [h10]
        rfl
      simp only [List.filter]
      rw [hres] at this
      simp only [GWorld.applySeedWrite] at this ⊢
      simp [this]
  | inr h =>
    cases h
    obtain ⟨rng, hrng⟩ := Option.isSome_iff_exists.mp he1
    have hres : w.seed_children cap 1
        = ({ w with entC := upd w.entC 1 (some (forkBatch cap rng [0]).2) },
            (forkBatch cap rng [0]).1) := by
      rw [GWorld.seed_children, hrng, h10]
    have hbatch : (forkBatch cap rng [0]).1
        = [(0, (rng.fork_seed cap).1)] := rfl
    simp only [cascadeStep, hres, hbatch, List.foldl, List.map, List.nil_append]
    refine ⟨⟨?_, ?_, ?_, ?_⟩, ?_⟩
    · simpa [GWorld.applySeedWrite] using h01
    · simpa [GWorld.applySeedWrite] using h10
    · simp [GWorld.applySeedWrite, upd]
    · simp [GWorld.applySeedWrite, upd]
    · left
      have : ((((w.seed_children cap 1).1.applySeedWrite 0
          (rng.fork_seed cap).1).linksC 0).isSome) = true := by
        rw [applySeedWrite_linksC, hres]
        show (w.linksC 0).isSome = true
        rw [h01]
        rfl
      simp only [List.filter]
      rw [hres] at this
      simp only [GWorld.applySeedWrite] at this ⊢
      simp [this]

/-- Counterexample for C8 as stated: in the cyclically linked two-entity
world, the reseed cascade started by one `SeedLinked` signal recurses
forever — no number of cascade steps ever empties the pending-signal
queue, so "a reseed cascade never recurses infinitely" fails. -/
theorem cascade_cycle_counterexample :
    ¬ ∃ n, (Nat.iterate (cascadeStep ⟨1, fun _ _ => 0⟩) n ⟨cycWorld, [0]⟩).queue = [] := by
  rintro ⟨n, hn⟩
  have key : ∀ m, (((cascadeStep ⟨1, fun _ _ => 0⟩)^[m] ⟨cycWorld, [0]⟩).world.linksC 0 = some [1]
      ∧ ((cascadeStep ⟨1, fun _ _ => 0⟩)^[m] ⟨cycWorld, [0]⟩).world.linksC 1 = some [0]
      ∧ (((cascadeStep ⟨1, fun _ _ => 0⟩)^[m] ⟨cycWorld, [0]⟩).world.entC 0).isSome
      ∧ (((cascadeStep ⟨1, fun _ _ => 0⟩)^[m] ⟨cycWorld, [0]⟩).world.entC 1).isSome)
      ∧ (((cascadeStep ⟨1, fun _ _ => 0⟩)^[m] ⟨cycWorld, [0]⟩).queue = [0]
        ∨ ((cascadeStep ⟨1, fun _ _ => 0⟩)^[m] ⟨cycWorld, [0]⟩).queue = [1]) := by
    intro m
    induction m with
    | zero => exact ⟨⟨rfl, rfl, rfl, rfl⟩, Or.inl rfl⟩
    | succ k ih =>
      rw [Function.iterate_succ_apply']
      exact cascade_cyc_invariant ⟨1, fun _ _ => 0⟩ _ ih.1 ih.2
  rcases (key n).2 with h | h <;> rw [hn] at h <;> cases h

/-! ## The concrete WyRand generator (claims C5, C6)

The reference reseeding scenario of `tests/integration/reseeding.rs` runs
on `WyRand`. -/

/-- Modelled from the spec: the concrete WyRand bit-generation algorithm is
an external collaborator (`bevy_prng::WyRand` wraps the external `wyrand`
crate, whose body is not under src); the spec treats every algorithm as an
opaque deterministic capability, fixed-size seed in, deterministic stream
out. The algorithm is therefore reproduced here from the wyrand crate
(wyhash final-v4.2 constants): the 64-bit state advances by `wyP` per draw
and the draw output is the xor-folded 128-bit product of the state with
`state xor wyQ`. The model is validated below against the repository's own
published reference sequences. First multiplier constant. -/
def wyP : Nat := 0x2d358dccaa6c78a5

/-- Modelled from the spec: second WyRand constant (see `wyP`). -/
def wyQ : Nat := 0x8bb84b93962eacc9

/-- The WyRand output mix: xor of the high and low 64-bit halves of
`s * (s xor wyQ)`. -/
def wyMix (s : Nat) : Nat :=
  Nat.xor (s * Nat.xor s wyQ / 2 ^ 64) (s * Nat.xor s wyQ % 2 ^ 64)

/-- The `k`-th 64-bit draw of a WyRand stream whose initial state is `s0`:
the state after `k + 1` advances, mixed. -/
def wyOutAt (s0 k : Nat) : Nat :=
  wyMix ((s0 + (k + 1) * wyP) % 2 ^ 64)

/-- The WyRand byte stream for a given seed: draws are produced
little-endian, eight bytes per 64-bit output, the initial state being the
little-endian value of the eight seed bytes. -/
def wyStream (seed : List Nat) (i : Nat) : Nat :=
  wyOutAt (leVal seed) (i / 8) / 256 ^ (i % 8) % 256

/-- The WyRand capability: eight seed bytes, the WyRand stream. -/
def capWy : Capability := ⟨8, wyStream⟩

/-- Model of `SeedableRng::from_seed` for WyRand takes exactly `[u8; 8]`: a byte
list of any other length is not a WyRand seed. -/
def wyFromSeed (bs : List Nat) : Option Entropy :=
  if bs.length = capWy.width then some (Entropy.fromSeed bs) else none

/-- The root seed of the reference reseeding scenario
(`tests/integration/reseeding.rs`): eight bytes of 0x02. -/
def seed2x8 : List Nat := List.replicate 8 2

/-- The reference scenario world: entity 0 is the global source holding
`Entropy::<WyRand>::from_seed([2; 8])`, entities 1-5 are its linked
targets in edge-insertion order. -/
def c5World : GWorld :=
  GWorld.mk
    (fun x => if x = 0 then some (Entropy.fromSeed seed2x8) else none)
    (fun x => if x = 0 then some [1, 2, 3, 4, 5] else none)
    (fun x => if 1 ≤ x ∧ x ≤ 5 then some 0 else none)
    (fun _ => none)

/-- First `SeedLinked` processing at the global source. -/
def c5Step1 : GWorld × List (Nat × List Nat) := c5World.seed_children capWy 0

/-- The world after the first batch of seed writes is applied. -/
def c5World1 : GWorld :=
  c5Step1.2.foldl (fun acc p => acc.applySeedWrite p.1 p.2) c5Step1.1

/-- Second `SeedLinked` processing, from the advanced source stream. -/
def c5Step2 : GWorld × List (Nat × List Nat) := c5World1.seed_children capWy 0

/-- The five target seeds of the first batch, read little-endian 64-bit. -/
def c5FirstVals : List Nat := c5Step1.2.map (fun p => leVal p.2)

/-- The five target seeds of the second batch, read little-endian 64-bit. -/
def c5SecondVals : List Nat := c5Step2.2.map (fun p => leVal p.2)

/-- The published reference sequence of `observer_global_reseeding`
(tests/integration/reseeding.rs lines 185-191). -/
def c5RefSeq : List Nat :=
  [2484862625678185386, 10323237495534242118, 14704548354072994214,
    14638519449267265798, 11723565746675474547]

/-- C5 (amended). In the reference scenario — root seed eight bytes of
0x02, five targets linked to the global WyRand source — the first
`SeedLinked` flush writes five target seeds whose little-endian 64-bit
values equal the published reference sequence (both in the batch and in
the targets' stored seed components), and a second `SeedLinked` yields
five pairwise-distinct values none of which equals any value of the first
batch. -/
theorem observer_reseeding_reference_sequence :
    c5FirstVals = c5RefSeq
    ∧ [1, 2, 3, 4, 5].map (fun t => (c5World1.seedsC t).map leVal) = c5RefSeq.map some
    ∧ c5SecondVals.length = 5
    ∧ c5SecondVals.Nodup
    ∧ c5FirstVals.inter c5SecondVals = [] := by
  refine ⟨?_, ?_, ?_, ?_, ?_⟩ <;> decide

/-- Counterexample for C5 as stated: the RNG kind of the reference scenario
(the one whose forked target seeds are 64-bit values matching the
published sequence) is WyRand, whose seed is exactly eight bytes — 32
bytes of 0x02 is not a constructible root seed for it; the published
sequence arises from the eight-byte root seed instead. -/
theorem root_seed_width_counterexample :
    wyFromSeed (List.replicate 32 2) = none
    ∧ capWy.width = 8
    ∧ wyFromSeed seed2x8 = some (Entropy.fromSeed seed2x8)
    ∧ c5FirstVals = c5RefSeq := by
  refine ⟨?_, ?_, ?_, ?_⟩ <;> decide

/-- C6 (amended). Forking mutates the caller: the stream position advances
by the seed width, strictly when the width is positive, so two consecutive
forks read the two consecutive disjoint width-sized segments of the
caller's stream starting at its current position; the two forked seeds
differ exactly when those two stream segments differ. -/
theorem fork_mutates_consecutive_segments (cap : Capability) (e : Entropy)
    (hw : 0 < cap.width) :
    ((e.fork_seed cap).2.pos = e.pos + cap.width ∧ e.pos < (e.fork_seed cap).2.pos)
    ∧ (e.fork_seed cap).1 = segBytes cap e.seed e.pos 0
    ∧ ((e.fork_seed cap).2.fork_seed cap).1 = segBytes cap e.seed e.pos 1
    ∧ ((e.fork_seed cap).1 ≠ ((e.fork_seed cap).2.fork_seed cap).1
        ↔ segBytes cap e.seed e.pos 0 ≠ segBytes cap e.seed e.pos 1) := by
  have h1 := fork_seed_bytes cap e
  have h2 := fork_seed_bytes cap ((e.fork_seed cap).2)
  have hseg : ((e.fork_seed cap).2.fork_seed cap).1 = segBytes cap e.seed e.pos 1 := by
    rw [h2.1, h1.2]
    exact segBytes_shift cap e.seed e.pos 0
  refine ⟨⟨?_, ?_⟩, h1.1, hseg, ?_⟩
  · rw [h1.2]
  · rw [h1.2]
    exact Nat.lt_add_of_pos_right hw
  · rw [h1.1, hseg]

/-- Witness for C6: the WyRand reference stream at the scenario's root
seed; the width hypothesis is discharged by `decide`, and the two
consecutive stream segments there differ, so the two consecutive forked
seeds differ. -/
theorem fork_mutates_consecutive_segments_witness :
    0 < capWy.width
    ∧ ((Entropy.fromSeed seed2x8).fork_seed capWy).1
        ≠ (((Entropy.fromSeed seed2x8).fork_seed capWy).2.fork_seed capWy).1 := by
  refine ⟨by decide, ?_⟩
  exact (fork_mutates_consecutive_segments capWy (Entropy.fromSeed seed2x8)
    (by decide)).2.2.2.mpr (by decide)

/-- Counterexample for C6 as stated: under the constant-zero capability — a
legal instance of the opaque `EntropySource` contract, which promises
nothing about its stream's content — two consecutive forks from the same
live stream produce equal seeds (while still both advancing the caller).
Non-collision is a property of the concrete algorithm's stream, not of the
forking protocol. -/
theorem fork_noncollision_counterexample :
    ((Entropy.fromSeed []).fork_seed ⟨8, fun _ _ => 0⟩).1
      = (((Entropy.fromSeed []).fork_seed ⟨8, fun _ _ => 0⟩).2.fork_seed ⟨8, fun _ _ => 0⟩).1 := by
  decide

/-! ## The `GlobalEntropy` resource (claim C10)

`src/resource.rs`: `GlobalEntropy<R>` stores the initial seed alongside the
live instance. Every `RngCore` draw delegates to the `rng` field only. -/

/-- Model of `GlobalEntropy<R>` (src/resource.rs lines 70-73): the stored initial
seed and the live instance. -/
structure GlobalEntropyRes where
  seed : List Nat
  rng : Entropy

/-- Model of `GlobalEntropy::new` (src/resource.rs lines 81-86): keep a clone of the
seed and construct the instance from it. `SeedableRng::from_seed` for the
resource delegates here. -/
def GlobalEntropyRes.new (s : List Nat) : GlobalEntropyRes :=
  ⟨s, Entropy.fromSeed s⟩

/-- Model of `GlobalEntropy::reseed` (src/resource.rs lines 90-93). -/
def GlobalEntropyRes.reseed (_g : GlobalEntropyRes) (s : List Nat) : GlobalEntropyRes :=
  ⟨s, Entropy.fromSeed s⟩

/-- Model of `GlobalEntropy::get_seed` (src/resource.rs lines 97-99). -/
def GlobalEntropyRes.get_seed (g : GlobalEntropyRes) : List Nat :=
  g.seed

/-- Model of `RngCore::next_u32` for the resource (src/resource.rs lines 114-116):
delegate to the `rng` field. -/
def GlobalEntropyRes.next_u32 (cap : Capability) (g : GlobalEntropyRes) :
    Nat × GlobalEntropyRes :=
  ((g.rng.nextU32 cap).1, { g with rng := (g.rng.nextU32 cap).2 })

/-- Model of `RngCore::next_u64` for the resource (src/resource.rs lines 119-121). -/
def GlobalEntropyRes.next_u64 (cap : Capability) (g : GlobalEntropyRes) :
    Nat × GlobalEntropyRes :=
  ((g.rng.nextU64 cap).1, { g with rng := (g.rng.nextU64 cap).2 })

/-- Model of `RngCore::fill_bytes` for the resource (src/resource.rs lines 124-126). -/
def GlobalEntropyRes.fill_bytes (cap : Capability) (g : GlobalEntropyRes) (n : Nat) :
    List Nat × GlobalEntropyRes :=
  ((g.rng.fillBytes cap n).1, { g with rng := (g.rng.fillBytes cap n).2 })

/-- Model of `RngCore::try_fill_bytes` for the resource (src/resource.rs lines
129-131): delegation wrapped in the fallible result type. -/
def GlobalEntropyRes.try_fill_bytes (cap : Capability) (g : GlobalEntropyRes) (n : Nat) :
    Except Unit (List Nat) × GlobalEntropyRes :=
  (Except.ok (g.rng.fillBytes cap n).1, { g with rng := (g.rng.fillBytes cap n).2 })

/-- One draw operation on the resource. -/
inductive DrawOp where
  | u32 : DrawOp
  | u64 : DrawOp
  | fill (n : Nat) : DrawOp
  | tryFill (n : Nat) : DrawOp

def applyDraw (cap : Capability) (g : GlobalEntropyRes) : DrawOp → GlobalEntropyRes
  | .u32 => (g.next_u32 cap).2
  | .u64 => (g.next_u64 cap).2
  | .fill n => (g.fill_bytes cap n).2
  | .tryFill n => (g.try_fill_bytes cap n).2

def applyDraws (cap : Capability) (g : GlobalEntropyRes) (ds : List DrawOp) :
    GlobalEntropyRes :=
  ds.foldl (applyDraw cap) g

lemma applyDraw_seed (cap : Capability) (g : GlobalEntropyRes) (d : DrawOp) :
    (applyDraw cap g d).seed = g.seed := by
  cases d <;> rfl

lemma applyDraws_seed (cap : Capability) (g : GlobalEntropyRes) (ds : List DrawOp) :
    (applyDraws cap g ds).seed = g.seed := by
  induction ds generalizing g with
  | nil => rfl
  | cons d ds ih =>
    show (applyDraws cap (applyDraw cap g d) ds).seed = g.seed
    rw [ih, applyDraw_seed]

/-- C10. Every draw on `GlobalEntropy` (`next_u32`, `next_u64`,
`fill_bytes`, `try_fill_bytes`) mutates only the `rng` field: the stored
`seed` field is unchanged by each single draw, and after any sequence of
draws `get_seed` still returns exactly the seed passed to the most recent
`new`/`from_seed` or `reseed` call. -/
theorem global_entropy_seed_frame (cap : Capability) (g : GlobalEntropyRes) :
    ((g.next_u32 cap).2.seed = g.seed)
    ∧ ((g.next_u64 cap).2.seed = g.seed)
    ∧ (∀ n, (g.fill_bytes cap n).2.seed = g.seed)
    ∧ (∀ n, (g.try_fill_bytes cap n).2.seed = g.seed)
    ∧ (∀ s ds, (applyDraws cap (GlobalEntropyRes.new s) ds).get_seed = s)
    ∧ (∀ s ds, (applyDraws cap (g.reseed s) ds).get_seed = s) := by
  refine ⟨rfl, rfl, fun _ => rfl, fun _ => rfl, ?_, ?_⟩
  · intro s ds
    exact applyDraws_seed cap (GlobalEntropyRes.new s) ds
  · intro s ds
    exact applyDraws_seed cap (g.reseed s) ds

end BevyRand
